import Mathlib

/-!
Shallow embedding of the Resume-screener repository (Python) in Lean 4.

Conventions:
* Python `str` is modelled as `String` / `List Char`; machine floats are
  modelled as `ℚ` (every float literal appearing in the code and the claims
  is an exact decimal, so ℚ is faithful for the properties at issue).
* Python `dict` values flowing through the extraction pipeline are modelled
  by the sum type `PyVal` (string / int / float).
* Regex searches from the source are compiled by hand into executable
  scanning functions with Python's leftmost, greedy-with-backtracking
  semantics; each is documented next to the pattern it implements.
* External collaborators (OpenAI vision / LLM calls, pypdfium2 page
  rendering, the filesystem) are modelled as explicit inputs, since their
  behaviour is not part of this repository.
-/

namespace RS

/-- A Python scalar value as it occurs in the extraction dictionaries:
a string, an int, or a float (modelled exactly as a rational). -/
inductive PyVal where
  | vStr (s : String)
  | vInt (n : Int)
  | vFloat (q : ℚ)
deriving DecidableEq

/-- The whitespace characters recognised by Python's `str.strip()` and the
regex class `\s` (ASCII part plus the common Latin-1 white space; more
exotic Unicode spaces are not exercised by the code or the claims). -/
def spaceChars : List Char :=
  [' ', '\t', '\n', '\x0b', '\x0c', '\r',
   '\x1c', '\x1d', '\x1e', '\x1f', '\x85', '\xa0']

/-- Python whitespace test (`\s`, `str.isspace`, `str.strip`). -/
def pyIsSpace (c : Char) : Bool := spaceChars.contains c

/-- `str.strip()` on a character list: drop whitespace at both ends. -/
def stripL (l : List Char) : List Char :=
  ((l.dropWhile pyIsSpace).reverse.dropWhile pyIsSpace).reverse

/-- `str.strip()`. -/
def pyStrip (s : String) : String := ⟨stripL s.data⟩

/-- ASCII lower-casing of a character list (`str.lower()`; the inputs the
code lower-cases are ASCII keyword tables and resume lines). -/
def lowerL (l : List Char) : List Char := l.map Char.toLower

/-- Whether `pre` is a prefix of `l` (plain character equality). -/
def prefixAt : List Char → List Char → Bool
  | [], _ => true
  | _ :: _, [] => false
  | p :: ps, c :: cs => p = c && prefixAt ps cs

/-- Whether `needle` occurs as a contiguous substring of `hay`
(Python `needle in hay`). -/
def containsSub (hay needle : List Char) : Bool :=
  match hay with
  | [] => prefixAt needle []
  | _ :: rest => prefixAt needle hay || containsSub rest needle

/-- First index at which `needle` occurs in `hay` case-insensitively
(the scan performed by `re.search(..., re.IGNORECASE)` on a literal). -/
def findSubCI (hay needle : List Char) : Option Nat :=
  match hay with
  | [] => if prefixAt (lowerL needle) [] then some 0 else none
  | _ :: rest =>
    if prefixAt (lowerL needle) (lowerL hay) then some 0
    else (findSubCI rest needle).map (· + 1)

/-- Case-insensitive substring test. -/
def containsSubCI (hay needle : List Char) : Bool :=
  (findSubCI hay needle).isSome

/-- Value of a list of decimal digit characters. -/
def natOfDigits (l : List Char) : Nat :=
  l.foldl (fun a c => 10 * a + (c.toNat - 48)) 0

/-- `str.splitlines()` worker: `cur` is the current line, reversed. -/
def slGo (cur : List Char) : List Char → List (List Char)
  | [] => [cur.reverse]
  | '\r' :: '\n' :: [] => [cur.reverse]
  | '\r' :: '\n' :: c :: rest => cur.reverse :: slGo [] (c :: rest)
  | '\r' :: [] => [cur.reverse]
  | '\r' :: c :: rest =>
    if c = '\n' then cur.reverse :: slGo [] rest
    else cur.reverse :: slGo [] (c :: rest)
  | '\n' :: [] => [cur.reverse]
  | '\n' :: c :: rest => cur.reverse :: slGo [] (c :: rest)
  | c :: rest => slGo (c :: cur) rest

/-- `str.splitlines()` (newline conventions `\n`, `\r`, `\r\n`; the final
line-break produces no trailing empty line, as in Python). -/
def splitLinesL : List Char → List (List Char)
  | [] => []
  | c :: rest => slGo [] (c :: rest)

/-- `len(line.split())`: the number of maximal non-whitespace runs. -/
def wordCount (l : List Char) : Nat :=
  (l.foldl
    (fun (st : Bool × Nat) c =>
      if pyIsSpace c then (false, st.2)
      else (true, if st.1 then st.2 else st.2 + 1))
    (false, 0)).2

/-- Match of `(19|20)\d{2}` anchored at the head of the list. -/
def yearAt : List Char → Option (List Char)
  | c1 :: c2 :: c3 :: c4 :: _ =>
    if ((c1 = '1' ∧ c2 = '9') ∨ (c1 = '2' ∧ c2 = '0')) ∧
        c3.isDigit ∧ c4.isDigit
    then some [c1, c2, c3, c4] else none
  | _ => none

/-- `re.search(r"(19|20)\d{2}", s)`: leftmost 4-character match. -/
def yearSearchL : List Char → Option (List Char)
  | [] => none
  | c :: rest =>
    match yearAt (c :: rest) with
    | some m => some m
    | none => yearSearchL rest

/-- Value of the `\d+(?:\.\d+)?` match that starts at the head of `l`
(which must start with a digit): greedy integer part, then an optional
fractional part requiring at least one digit after the dot. -/
def parseNum (l : List Char) : ℚ :=
  let ds := l.takeWhile Char.isDigit
  let intPart : ℚ := (natOfDigits ds : ℚ)
  match l.drop ds.length with
  | '.' :: r2 =>
    let fs := r2.takeWhile Char.isDigit
    if fs.length = 0 then intPart
    else intPart + (natOfDigits fs : ℚ) / ((10 : ℚ) ^ fs.length)
  | _ => intPart

/-- `re.findall(r"\d+(?:\.\d+)?", s)[0]` parsed by `float`, as used by the
validator: the leftmost float-like substring, if any. -/
def firstNumL : List Char → Option ℚ
  | [] => none
  | c :: rest => if c.isDigit then some (parseNum (c :: rest)) else firstNumL rest

/-- `str(v)` for the places the validator applies it. CPython's shortest
round-trip repr of a non-integral float is approximated by a plain decimal
rendering; no claim exercises `str` on a non-integral float. -/
def pyStr : PyVal → String
  | .vStr s => s
  | .vInt n => toString n
  | .vFloat q =>
    if q.den = 1 then toString q.num ++ ".0"
    else toString q.num ++ "/" ++ toString q.den

/-- The 22 keys of the canonical validated record
(`validate_resume_data`'s `keys` list in `src/utils/validators.py`). -/
inductive VKey where
  | resume_id | file_name | upload_date | name | email | phone
  | highest_degree | college_name | graduation_year | major | cgpa
  | total_experience_years | current_company | current_designation
  | previous_companies | technical_skills | programming_languages
  | frameworks_tools | soft_skills | certifications | linkedin | github
deriving DecidableEq

/-- The dictionary key string for each canonical key. -/
def keyStr : VKey → String
  | .resume_id => "resume_id"
  | .file_name => "file_name"
  | .upload_date => "upload_date"
  | .name => "name"
  | .email => "email"
  | .phone => "phone"
  | .highest_degree => "highest_degree"
  | .college_name => "college_name"
  | .graduation_year => "graduation_year"
  | .major => "major"
  | .cgpa => "cgpa"
  | .total_experience_years => "total_experience_years"
  | .current_company => "current_company"
  | .current_designation => "current_designation"
  | .previous_companies => "previous_companies"
  | .technical_skills => "technical_skills"
  | .programming_languages => "programming_languages"
  | .frameworks_tools => "frameworks_tools"
  | .soft_skills => "soft_skills"
  | .certifications => "certifications"
  | .linkedin => "linkedin"
  | .github => "github"

/-- Body of `validate_resume_data`'s per-key loop: `v0` is `data.get(k)`
(`none` when the key is absent, in which case the default `'Not Found'`
is used). -/
def validateVal (k : VKey) (v0 : Option PyVal) : PyVal :=
  let v := v0.getD (.vStr "Not Found")
  if k = .total_experience_years then
    match v with
    | .vInt n => .vFloat (n : ℚ)
    | .vFloat q => .vFloat q
    | .vStr s => .vFloat ((firstNumL s.data).getD 0)
  else if k = .graduation_year then
    .vStr ⟨stripL ((yearSearchL (pyStr v).data).getD [])⟩
  else
    match v with
    | .vStr s => .vStr (pyStrip s)
    | w => w

/-- `validate_resume_data` (`src/utils/validators.py`): a raw mapping,
modelled as a partial assignment of the canonical keys, is coerced to a
total canonical record. Keys outside the canonical list are ignored by
the source loop and hence absent from the model. -/
def validate_resume_data (data : VKey → Option PyVal) : VKey → PyVal :=
  fun k => validateVal k (data k)

/-- Whitespace-run collapsing (`re.sub(r'\s+', ' ', text)`): `prevSpace`
records whether the previous input character was part of a whitespace run
already replaced by a single space. -/
def collapseGo (prevSpace : Bool) : List Char → List Char
  | [] => []
  | c :: rest =>
    if pyIsSpace c then
      if prevSpace then collapseGo true rest
      else ' ' :: collapseGo true rest
    else c :: collapseGo false rest

/-- `clean_text` (`src/utils/helpers.py`): replace `\r` and `\n` by spaces,
collapse whitespace runs to single spaces, strip both ends. -/
def clean_text (s : String) : String :=
  ⟨stripL (collapseGo false
    (s.data.map (fun c => if c = '\r' then ' ' else if c = '\n' then ' ' else c)))⟩

/-- First-success search over an ordered list of alternatives (the order in
which a backtracking regex engine tries them). -/
def findFirstO {α β : Type} (xs : List α) (f : α → Option β) : Option β :=
  match xs with
  | [] => none
  | x :: rest =>
    match f x with
    | some b => some b
    | none => findFirstO rest f

/-- A phone-number separator: the class `[\s.-]`. -/
def isSep (c : Char) : Bool := pyIsSpace c || c = '.' || c = '-'

/-- Alternatives for `[\s.-]?` at `(l, n)` (input rest, chars consumed so
far), in the engine's preference order: consume one separator, else empty. -/
def sepAlt (l : List Char) (n : Nat) : List (List Char × Nat) :=
  match l with
  | c :: rest => if isSep c then [(rest, n + 1), (l, n)] else [(l, n)]
  | [] => [(l, n)]

/-- Alternatives for `\d{lo,hi}` (greedy): consumed counts from
`min hi run` down to `lo`, empty if fewer than `lo` digits are available. -/
def digitsAlt (lo hi : Nat) (l : List Char) (n : Nat) : List (List Char × Nat) :=
  let run := (l.takeWhile Char.isDigit).length
  let m := min hi run
  if m < lo then []
  else (List.range (m - lo + 1)).map (fun j => (l.drop (m - j), n + (m - j)))

/-- Alternatives for `\+?`: consume a plus sign, else empty. -/
def plusAlt (l : List Char) (n : Nat) : List (List Char × Nat) :=
  match l with
  | '+' :: rest => [(rest, n + 1), (l, n)]
  | _ => [(l, n)]

/-- Alternatives for the group `(?:\+?\d{1,3}[\s.-]?)?` in preference
order (group present — itself greedy inside — before group absent). -/
def groupAAlt (l : List Char) (n : Nat) : List (List Char × Nat) :=
  ((plusAlt l n).flatMap (fun p =>
    (digitsAlt 1 3 p.1 p.2).flatMap (fun d => sepAlt d.1 d.2))) ++ [(l, n)]

/-- Alternatives for the group `(?:\(\d{2,4}\)[\s.-]?)?`. -/
def groupBAlt (l : List Char) (n : Nat) : List (List Char × Nat) :=
  (match l with
   | '(' :: rest =>
     (digitsAlt 2 4 rest (n + 1)).flatMap (fun d =>
       match d.1 with
       | ')' :: r2 => sepAlt r2 (d.2 + 1)
       | _ => [])
   | _ => []) ++ [(l, n)]

/-- Backtracking match, anchored at the head of `l`, of the phone pattern
`(?:(?:\+?\d{1,3}[\s.-]?)?(?:\(\d{2,4}\)[\s.-]?)?\d{3,4}[\s.-]?\d{3,4}[\s.-]?\d{0,4})`
from `extract_with_rules`. Returns the number of characters of `group(0)`
under Python's first-success backtracking order. -/
def matchPhoneAt (l : List Char) : Option Nat :=
  findFirstO (groupAAlt l 0) (fun a =>
  findFirstO (groupBAlt a.1 a.2) (fun b =>
  findFirstO (digitsAlt 3 4 b.1 b.2) (fun c =>
  findFirstO (sepAlt c.1 c.2) (fun d =>
  findFirstO (digitsAlt 3 4 d.1 d.2) (fun e =>
  findFirstO (sepAlt e.1 e.2) (fun f =>
  ((digitsAlt 0 4 f.1 f.2).head?).map (·.2)))))))

/-- `re.search` scan for the phone pattern: leftmost position at which the
anchored match succeeds; returns `group(0)`. -/
def phoneSearch : List Char → Option (List Char)
  | [] => none
  | c :: rest =>
    match matchPhoneAt (c :: rest) with
    | some n => some ((c :: rest).take n)
    | none => phoneSearch rest

/-- The class `[A-Za-z0-9._%+-]` (local part of the email pattern). -/
def isEmailLocal (c : Char) : Bool :=
  c.isAlpha || c.isDigit || c = '.' || c = '_' || c = '%' || c = '+' || c = '-'

/-- The class `[A-Za-z0-9.-]` (domain part of the email pattern). -/
def isEmailDomain (c : Char) : Bool := c.isAlpha || c.isDigit || c = '.' || c = '-'

/-- Backtracking over the split point of `[A-Za-z0-9.-]+\.[A-Za-z]{2,}`:
given the text after `@`, try consuming `n2` domain characters (from the
maximal run downward) so that a dot followed by at least two letters
follows; returns `(n2, tldLen)` with greedy `tldLen`. -/
def emailFindDot (rest : List Char) : Nat → Option (Nat × Nat)
  | 0 => none
  | Nat.succ k =>
    match rest.drop (k + 1) with
    | '.' :: t =>
      let tl := (t.takeWhile Char.isAlpha).length
      if 2 ≤ tl then some (k + 1, tl) else emailFindDot rest k
    | _ => emailFindDot rest k

/-- Match of `[A-Za-z0-9._%+-]+@[A-Za-z0-9.-]+\.[A-Za-z]{2,}` anchored at
the head of `l` (length of `group(0)`). The local-part run is forced
maximal because `@` is outside its class. -/
def emailMatchAt (l : List Char) : Option Nat :=
  let r1 := l.takeWhile isEmailLocal
  if r1.length = 0 then none
  else
    match l.drop r1.length with
    | '@' :: rest =>
      let r2 := rest.takeWhile isEmailDomain
      match emailFindDot rest r2.length with
      | some (n2, tl) => some (r1.length + 1 + n2 + 1 + tl)
      | none => none
    | _ => none

/-- `re.search` scan for the email pattern; returns `group(0)`. -/
def emailSearch : List Char → Option (List Char)
  | [] => none
  | c :: rest =>
    match emailMatchAt (c :: rest) with
    | some n => some ((c :: rest).take n)
    | none => emailSearch rest

/-- `re.search(needle-literal + r"\S*", text, re.I)`: the first
case-insensitive occurrence of `needle` extended by the following
non-whitespace run, in the original casing of `text`. -/
def urlSearch (hay needle : List Char) : Option (List Char) :=
  (findSubCI hay needle).map (fun i =>
    let fromI := hay.drop i
    let after := fromI.drop needle.length
    fromI.take (needle.length + (after.takeWhile (fun c => !pyIsSpace c)).length))

/-- The section-header keywords excluded by the name heuristic. -/
def headerKeywords : List (List Char) :=
  ["objective".data, "summary".data, "experience".data, "education".data,
   "skills".data]

/-- `re.search(r"@|linkedin|github|\d", ln, re.I)` as a Bool. -/
def nameReject (ln : List Char) : Bool :=
  ln.any (· = '@') || containsSubCI ln "linkedin".data ||
  containsSubCI ln "github".data || ln.any Char.isDigit

/-- The name heuristic: first of the leading 10 non-empty stripped lines
with at most 6 words, not a known header keyword, and with no
`@`/`linkedin`/`github`/digit. -/
def findName (lines : List (List Char)) : Option (List Char) :=
  (lines.take 10).find? (fun ln =>
    decide (wordCount ln ≤ 6) && !(headerKeywords.contains (lowerL ln)) &&
    !(nameReject ln))

/-- The ordered `degree_map` of `extract_with_rules` (insertion order of
the Python dict literal, which is the tie-break order). -/
def degreeMap : List (String × String) :=
  [("phd", "PhD"), ("doctor", "PhD"), ("masters", "Masters"),
   ("ms", "Masters"), ("m.s", "Masters"), ("m.tech", "Masters"),
   ("mtech", "Masters"), ("bachelors", "Bachelors"), ("bs", "Bachelors"),
   ("b.s", "Bachelors"), ("b.tech", "Bachelors"), ("btech", "Bachelors")]

/-- Word character for `\b` after `skills` (`[A-Za-z0-9_]`; the inputs at
issue are ASCII). -/
def isWordChar (c : Char) : Bool := c.isAlphanum || c = '_'

/-- `re.match(r"^skills\b", ln, re.I)`. -/
def startsSkills (ln : List Char) : Bool :=
  prefixAt (lowerL "skills".data) (lowerL ln) &&
  (match ln.drop 6 with
   | [] => true
   | c :: _ => !isWordChar c)

/-- Split on the separator class `[,\|\n;]` (`re.split`). -/
def splitSeps (l : List Char) : List (List Char) :=
  (l.splitOnP (fun c => c = ',' || c = '|' || c = '\n' || c = ';'))

/-- Lexicographic (code-point) order on strings, as used by Python
`sorted` on `str`. -/
def lexLe : List Char → List Char → Bool
  | [], _ => true
  | _ :: _, [] => false
  | a :: as_, b :: bs =>
    if a.toNat < b.toNat then true
    else if b.toNat < a.toNat then false
    else lexLe as_ bs

/-- Deduplication keeping the first occurrence (`set(...)` up to order;
the result is sorted afterwards, so which duplicate survives is moot). -/
def dedupFirst : List (List Char) → List (List Char)
  | [] => []
  | x :: rest => if rest.contains x then dedupFirst rest else x :: dedupFirst rest

/-- `sorted(set(xs))`. -/
def sortedSet (xs : List (List Char)) : List (List Char) :=
  (dedupFirst xs).mergeSort (fun a b => lexLe a b)

/-- `", ".join(tokens)` over character lists. -/
def joinComma (xs : List (List Char)) : List Char :=
  (xs.intersperse (", ".data)).flatten

/-- `" ".join(lines)` over character lists. -/
def joinSpace (xs : List (List Char)) : List Char :=
  (xs.intersperse ([' '])).flatten

/-- The result dictionary of `extract_with_rules`: the Python function
builds a dict with exactly these 19 fixed keys and only ever assigns to
existing keys, so a structure is a faithful embedding. -/
structure RuleData where
  name : String
  email : String
  phone : String
  linkedin : String
  github : String
  highest_degree : String
  college_name : String
  graduation_year : String
  major : String
  cgpa : String
  total_experience_years : ℚ
  current_company : String
  current_designation : String
  previous_companies : String
  technical_skills : String
  programming_languages : String
  frameworks_tools : String
  soft_skills : String
  certifications : String
deriving DecidableEq

/-- The initial all-default dictionary of `extract_with_rules`. -/
def ruleDefaults : RuleData :=
  { name := "Not Found", email := "Not Found", phone := "Not Found"
    linkedin := "Not Found", github := "Not Found"
    highest_degree := "Not Found", college_name := "Not Found"
    graduation_year := "Not Found", major := "Not Found", cgpa := "Not Found"
    total_experience_years := 0, current_company := "Not Found"
    current_designation := "Not Found", previous_companies := "Not Found"
    technical_skills := "Not Found", programming_languages := "Not Found"
    frameworks_tools := "Not Found", soft_skills := "Not Found"
    certifications := "Not Found" }

/-- The phone field computed by `extract_with_rules`:
`m = re.search(phone_pattern, text)` followed by
`if m and len(m.group(0).strip()) >= 10: data['phone'] = m.group(0).strip()`. -/
def rulePhone (l : List Char) : String :=
  match phoneSearch l with
  | some m => if 10 ≤ (stripL m).length then ⟨stripL m⟩ else "Not Found"
  | none => "Not Found"

/-- The technical-skills field computed by `extract_with_rules`: locate
the first line matching `^skills\b` (case-insensitively), join it and the
next 9 lines with spaces, split on `[,\|\n;]`, keep stripped tokens of
length ≥ 2, and emit the sorted deduplicated tokens joined by `", "`. -/
def ruleSkills (lines : List (List Char)) : String :=
  match (List.range lines.length).find? (fun i => startsSkills (lines.getD i [])) with
  | some i =>
    let tokens := sortedSet (((splitSeps (joinSpace ((lines.drop i).take 10))).map
      stripL).filter (fun p => 2 ≤ p.length))
    if tokens ≠ [] then ⟨joinComma tokens⟩ else "Not Found"
  | none => "Not Found"

/-- `extract_with_rules` (`src/extractors/langchain_extractor.py`): the
rule-based fallback extractor. The input is `Option String` to model a
possible `None` argument (`text = resume_text or ""`). The Python
function initialises a fixed-key default dict and then assigns each key
at most once from its own independent search, so the sequence of
conditional updates is presented as one record literal, field by field;
every unassigned field keeps its default from `ruleDefaults`. -/
def extract_with_rules (resume_text : Option String) : RuleData :=
  let text := resume_text.getD ""
  let l := text.data
  let lines := (splitLinesL l).map stripL |>.filter (· ≠ [])
  { ruleDefaults with
    email := match emailSearch l with
      | some m => ⟨m⟩
      | none => ruleDefaults.email
    phone := rulePhone l
    linkedin := match urlSearch l "linkedin.com".data with
      | some m => ⟨m⟩
      | none => ruleDefaults.linkedin
    github := match urlSearch l "github.com".data with
      | some m => ⟨m⟩
      | none => ruleDefaults.github
    name := match findName lines with
      | some ln => ⟨ln⟩
      | none => ruleDefaults.name
    highest_degree := match degreeMap.find? (fun kv => containsSub (lowerL l) kv.1.data) with
      | some kv => kv.2
      | none => ruleDefaults.highest_degree
    graduation_year := match yearSearchL l with
      | some m => ⟨m⟩
      | none => ruleDefaults.graduation_year
    technical_skills := ruleSkills lines }

/-- The 19 canonical extraction keys, in the shared order of the Python
dict literals in `extract_with_rules` and the `ResumeFields` model. -/
def canonicalKeys : List String :=
  ["name", "email", "phone", "linkedin", "github",
   "highest_degree", "college_name", "graduation_year", "major", "cgpa",
   "total_experience_years", "current_company", "current_designation",
   "previous_companies", "technical_skills", "programming_languages",
   "frameworks_tools", "soft_skills", "certifications"]

/-- The rule dictionary as the association list Python iterates over. -/
def toAssoc (d : RuleData) : List (String × PyVal) :=
  [("name", .vStr d.name), ("email", .vStr d.email), ("phone", .vStr d.phone),
   ("linkedin", .vStr d.linkedin), ("github", .vStr d.github),
   ("highest_degree", .vStr d.highest_degree),
   ("college_name", .vStr d.college_name),
   ("graduation_year", .vStr d.graduation_year),
   ("major", .vStr d.major), ("cgpa", .vStr d.cgpa),
   ("total_experience_years", .vFloat d.total_experience_years),
   ("current_company", .vStr d.current_company),
   ("current_designation", .vStr d.current_designation),
   ("previous_companies", .vStr d.previous_companies),
   ("technical_skills", .vStr d.technical_skills),
   ("programming_languages", .vStr d.programming_languages),
   ("frameworks_tools", .vStr d.frameworks_tools),
   ("soft_skills", .vStr d.soft_skills),
   ("certifications", .vStr d.certifications)]

/-- The `ResumeFields` pydantic model of `langchain_extractor.py`: 18
string fields defaulting to `'Not Found'` and one float defaulting to
`0.0`. `model_dump()` yields these fields in declaration order. -/
structure ResumeFields where
  name : String
  email : String
  phone : String
  linkedin : String
  github : String
  highest_degree : String
  college_name : String
  graduation_year : String
  major : String
  cgpa : String
  total_experience_years : ℚ
  current_company : String
  current_designation : String
  previous_companies : String
  technical_skills : String
  programming_languages : String
  frameworks_tools : String
  soft_skills : String
  certifications : String
deriving DecidableEq

/-- All-default `ResumeFields`. -/
def defaultFields : ResumeFields :=
  { name := "Not Found", email := "Not Found", phone := "Not Found"
    linkedin := "Not Found", github := "Not Found"
    highest_degree := "Not Found", college_name := "Not Found"
    graduation_year := "Not Found", major := "Not Found", cgpa := "Not Found"
    total_experience_years := 0, current_company := "Not Found"
    current_designation := "Not Found", previous_companies := "Not Found"
    technical_skills := "Not Found", programming_languages := "Not Found"
    frameworks_tools := "Not Found", soft_skills := "Not Found"
    certifications := "Not Found" }

/-- `result.model_dump()` as the association list Python iterates over. -/
def fieldsToDict (f : ResumeFields) : List (String × PyVal) :=
  [("name", .vStr f.name), ("email", .vStr f.email), ("phone", .vStr f.phone),
   ("linkedin", .vStr f.linkedin), ("github", .vStr f.github),
   ("highest_degree", .vStr f.highest_degree),
   ("college_name", .vStr f.college_name),
   ("graduation_year", .vStr f.graduation_year),
   ("major", .vStr f.major), ("cgpa", .vStr f.cgpa),
   ("total_experience_years", .vFloat f.total_experience_years),
   ("current_company", .vStr f.current_company),
   ("current_designation", .vStr f.current_designation),
   ("previous_companies", .vStr f.previous_companies),
   ("technical_skills", .vStr f.technical_skills),
   ("programming_languages", .vStr f.programming_languages),
   ("frameworks_tools", .vStr f.frameworks_tools),
   ("soft_skills", .vStr f.soft_skills),
   ("certifications", .vStr f.certifications)]

/-- The Python test `v in ("Not Found", 0.0, "") or not v` on a dict
value (`0` and `0.0` compare equal in Python, and `not v` adds nothing
beyond the listed falsy values for the types that occur). -/
def isDefaultVal (v : PyVal) : Bool :=
  v = .vStr "Not Found" || v = .vStr "" || v = .vFloat 0 || v = .vInt 0

/-- One step of the backfill loop: `if k in data and (data[k] in
("Not Found", 0.0, "") or not data[k]): data[k] = v`. -/
def updateIfDefault (d : List (String × PyVal)) (k : String) (v : PyVal) :
    List (String × PyVal) :=
  d.map (fun kv => if kv.1 = k ∧ isDefaultVal kv.2 then (k, v) else kv)

/-- The backfill loop of `extract_with_langchain`: iterate over the rule
dictionary's items, overwriting each still-default entry of `data`. -/
def backfill (data rule : List (String × PyVal)) : List (String × PyVal) :=
  rule.foldl (fun d kv => updateIfDefault d kv.1 kv.2) data

/-- `extract_with_langchain` (`src/extractors/langchain_extractor.py`).
The external language-model call is modelled by the two parameters:
`llmAvailable` is `ChatOpenAI is not None`, and `llm` is the outcome of
`chain.invoke` (`Except.error` models any raised exception). -/
def extract_with_langchain (llmAvailable : Bool) (llm : Except Unit ResumeFields)
    (resume_text : String) : List (String × PyVal) :=
  if resume_text = "" ∨ (pyStrip resume_text).length < 20 then []
  else if llmAvailable = false then toAssoc (extract_with_rules (some resume_text))
  else
    match llm with
    | .error _ => toAssoc (extract_with_rules (some resume_text))
    | .ok fields =>
      let data := fieldsToDict fields
      if data.isEmpty || data.all (fun kv => isDefaultVal kv.2) then
        backfill data (toAssoc (extract_with_rules (some resume_text)))
      else data

/-- `_pdf_to_images` (`src/extractors/vision_extractor.py`). The pypdfium2
decoder is modelled by `doc`: `none` when `PdfDocument` raises on the
byte stream, otherwise the list of pages, each a function from the render
scale to `some` image or `none` when `page.render` raises. The Python
loop appends images until the first exception, which is caught and leaves
the images accumulated so far to be returned (defaults in the source:
`max_pages = 3`, `scale = 2.0`). -/
def renderPages {α : Type} (ps : List (ℚ → Option α)) (scale : ℚ) : List α :=
  match ps with
  | [] => []
  | p :: rest =>
    match p scale with
    | none => []
    | some img => img :: renderPages rest scale

/-- `_pdf_to_images` proper: open the document (empty on failure), render
the first `min page_count max_pages` pages in order, stopping at the
first page whose rendering raises. -/
def pdf_to_images {α : Type} (doc : Option (List (ℚ → Option α)))
    (maxPages : Nat) (scale : ℚ) : List α :=
  match doc with
  | none => []
  | some ps => renderPages (ps.take maxPages) scale

/-- Upload file extension as dispatched by `process_single_resume`. -/
inductive FileExt where
  | pdf | docx | doc | other
deriving DecidableEq

/-- The collaborators of one `process_single_resume` call, modelled as
data: the vision tier's result (`extract_with_openai_vision`; empty dict
on any failure), the text extracted from the file by the PDF/DOCX parser,
the behaviour of the text-model tier (`extract_with_langchain`, which
depends on an external model) and the identity fields generated by the
caller. -/
structure UploadCtx where
  vision : List (String × PyVal)
  pdfText : String
  docxText : String
  lang : String → List (String × PyVal)
  rid : String
  fname : String
  udate : String

/-- The `base` identity dict of `process_single_resume`. -/
def baseLookup (ctx : UploadCtx) : VKey → Option PyVal
  | .resume_id => some (.vStr ctx.rid)
  | .file_name => some (.vStr ctx.fname)
  | .upload_date => some (.vStr ctx.udate)
  | _ => none

/-- `{**base, **ai_data}` restricted to the canonical keys consumed by the
validator (`ai_data` wins on collision). -/
def mergedInput (ctx : UploadCtx) (ai : List (String × PyVal)) :
    VKey → Option PyVal :=
  fun k =>
    match ai.lookup (keyStr k) with
    | some v => some v
    | none => baseLookup ctx k

/-- Tail of `process_single_resume` shared by the PDF and DOCX branches:
reject when the extraction dict is empty, else validate `{**base, **ai}`. -/
def finishResume (ctx : UploadCtx) (ai : List (String × PyVal)) :
    Option (VKey → PyVal) :=
  if ai = [] then none
  else some (validate_resume_data (mergedInput ctx ai))

/-- `process_single_resume` (`src/app.py`): vision tier first; if it
yields nothing, extract text, reject below the 50-character threshold,
else run the text-model tier on the cleaned text; reject when no tier
produced data, else validate with the identity fields. -/
def process_single_resume (ext : FileExt) (ctx : UploadCtx) :
    Option (VKey → PyVal) :=
  match ext with
  | .pdf =>
    if ctx.vision = [] then
      let text := ctx.pdfText
      if text = "" ∨ (pyStrip text).length < 50 then none
      else finishResume ctx (ctx.lang (clean_text text))
    else finishResume ctx ctx.vision
  | .docx | .doc =>
    if ctx.vision = [] then
      let text := ctx.docxText
      if text = "" then none
      else if (pyStrip text).length < 50 then none
      else finishResume ctx (ctx.lang (clean_text text))
    else finishResume ctx ctx.vision
  | .other => none

/-- A pandas DataFrame restricted to what `excel_handler.py` manipulates:
a column list and rows of cells, a cell being `none` for `NaN`/missing
(all persisted cell values at issue are strings). A row is aligned
positionally with `cols`. -/
structure DataFrame where
  cols : List String
  rows : List (List (Option String))
deriving DecidableEq

/-- `list(dict.fromkeys(a + b))`: union preserving first occurrence. -/
def unionCols (a b : List String) : List String :=
  (a ++ b).foldl (fun acc c => if acc.contains c then acc else acc ++ [c]) []

/-- Cell of `row` (laid out along `cols`) in column `c`; `NaN` when the
column is absent. -/
def getCell (cols : List String) (row : List (Option String)) (c : String) :
    Option String :=
  match cols.findIdx? (fun x => x = c) with
  | some i => (row.get? i).getD none
  | none => none

/-- `df.reindex(columns=newCols)` on one row. -/
def reindexRow (oldCols : List String) (row : List (Option String))
    (newCols : List String) : List (Option String) :=
  newCols.map (getCell oldCols row)

/-- `df.reindex(columns=newCols)`. -/
def reindexFrame (f : DataFrame) (newCols : List String) : DataFrame :=
  ⟨newCols, f.rows.map (fun r => reindexRow f.cols r newCols)⟩

/-- `drop_duplicates(subset=..., keep='last')`: keep a row iff no later
row has the same key (preserving order, keeping the last occurrence of
each key — pandas treats `NaN` keys as equal, as does `Option.none`). -/
def dropDupLast {α κ : Type} [DecidableEq κ] (key : α → κ) :
    List α → List α
  | [] => []
  | a :: rest =>
    if rest.any (fun b => key b = key a) then dropDupLast key rest
    else a :: dropDupLast key rest

/-- `fillna('Not Found')` on one row. -/
def fillRow (row : List (Option String)) : List (Option String) :=
  row.map (fun c => some (c.getD "Not Found"))

/-- Column projection `df[existing_cols]` for `selected_columns`
(`if selected_columns:` — `None` and `[]` are both falsy). -/
def projectColumns (df : DataFrame) (sel : Option (List String)) : DataFrame :=
  match sel with
  | some (c :: cs) =>
    let ex := (c :: cs).filter (fun x => df.cols.contains x)
    ⟨ex, df.rows.map (fun r => reindexRow df.cols r ex)⟩
  | _ => df

/-- `save_to_excel` (`src/storage/excel_handler.py`), modelling the
table written to `out_path`. `existing` is the previously persisted
table: `none` when the file is absent or `pd.read_excel` raises, in both
of which cases the source proceeds with an empty DataFrame. -/
def save_to_excel (df : DataFrame) (sel : Option (List String))
    (existing : Option DataFrame) (merge : Bool) : DataFrame :=
  let dfToSave := projectColumns df sel
  if merge then
    let ex := existing.getD ⟨[], []⟩
    let allCols := unionCols ex.cols dfToSave.cols
    let combined := (reindexFrame ex allCols).rows ++
      (reindexFrame dfToSave allCols).rows
    let deduped :=
      if "resume_id" ∈ allCols then
        dropDupLast (fun r => getCell allCols r "resume_id") combined
      else if "file_name" ∈ allCols ∧ "upload_date" ∈ allCols then
        dropDupLast
          (fun r => (getCell allCols r "file_name", getCell allCols r "upload_date"))
          combined
      else combined
    ⟨allCols, deduped.map fillRow⟩
  else ⟨dfToSave.cols, dfToSave.rows.map fillRow⟩

/-! ## Helper lemmas -/

theorem dropWhile_cons_false {p : Char → Bool} :
    ∀ (l : List Char) {x : Char} {xs : List Char},
      l.dropWhile p = x :: xs → p x = false := by
  intro l
  induction l with
  | nil => intro x xs h; simp [List.dropWhile] at h
  | cons c cs ih =>
    intro x xs h
    by_cases hc : p c
    · rw [List.dropWhile_cons_of_pos hc] at h
      exact ih h
    · rw [List.dropWhile_cons_of_neg hc] at h
      cases h
      simpa using hc

theorem dropWhile_dropWhile {p : Char → Bool} (l : List Char) :
    (l.dropWhile p).dropWhile p = l.dropWhile p := by
  cases h : l.dropWhile p with
  | nil => simp
  | cons x xs =>
    have hx := dropWhile_cons_false _ h
    rw [List.dropWhile_cons_of_neg (by simp [hx])]

theorem stripL_head_false {l : List Char} {x : Char} {xs : List Char}
    (h : stripL l = x :: xs) : pyIsSpace x = false := by
  unfold stripL at h
  obtain ⟨t, ht⟩ : ∃ t, t ++ (l.dropWhile pyIsSpace).reverse.dropWhile pyIsSpace =
      (l.dropWhile pyIsSpace).reverse :=
    ⟨(l.dropWhile pyIsSpace).reverse.takeWhile pyIsSpace,
      List.takeWhile_append_dropWhile _ _⟩
  have hb : l.dropWhile pyIsSpace =
      ((l.dropWhile pyIsSpace).reverse.dropWhile pyIsSpace).reverse ++ t.reverse := by
    have := congrArg List.reverse ht
    simpa using this.symm
  rw [h] at hb
  exact dropWhile_cons_false _ (by simpa using hb)

theorem stripL_getLast_false {l : List Char} {x : Char}
    (h : (stripL l).getLast? = some x) : pyIsSpace x = false := by
  unfold stripL at h
  rw [List.getLast?_reverse] at h
  cases hd : (l.dropWhile pyIsSpace).reverse.dropWhile pyIsSpace with
  | nil => rw [hd] at h; simp at h
  | cons y ys =>
    rw [hd] at h
    simp at h
    rw [← h]
    exact dropWhile_cons_false _ hd

theorem stripL_expand (m : List Char) :
    stripL m = ((m.dropWhile pyIsSpace).reverse.dropWhile pyIsSpace).reverse := rfl

theorem stripL_stripL (l : List Char) : stripL (stripL l) = stripL l := by
  have hfront : (stripL l).dropWhile pyIsSpace = stripL l := by
    cases h : stripL l with
    | nil => simp
    | cons x xs =>
      exact List.dropWhile_cons_of_neg (by simp [stripL_head_false h])
  rw [stripL_expand (stripL l), hfront, stripL_expand l,
    List.reverse_reverse, dropWhile_dropWhile]

theorem mem_stripL {c : Char} {l : List Char} (h : c ∈ stripL l) : c ∈ l := by
  unfold stripL at h
  rw [List.mem_reverse] at h
  have h1 := (List.dropWhile_sublist (l := (l.dropWhile pyIsSpace).reverse)
    pyIsSpace).mem h
  rw [List.mem_reverse] at h1
  exact (List.dropWhile_sublist pyIsSpace).mem h1

theorem stripL_of_all_not_space {l : List Char}
    (h : ∀ c ∈ l, pyIsSpace c = false) : stripL l = l := by
  have hdw : ∀ (m : List Char), (∀ c ∈ m, pyIsSpace c = false) →
      m.dropWhile pyIsSpace = m := by
    intro m hm
    cases m with
    | nil => simp
    | cons x xs => rw [List.dropWhile_cons_of_neg (by simp [hm x (by simp)])]
  unfold stripL
  rw [hdw l h, hdw l.reverse (by intro c hc; exact h c (by simpa using hc)),
    List.reverse_reverse]

theorem isDigit_not_space {c : Char} (h : c.isDigit = true) :
    pyIsSpace c = false := by
  by_contra hs
  have hmem : c ∈ spaceChars := by
    have := eq_true_of_ne_false hs
    unfold pyIsSpace at this
    exact List.elem_iff.mp this
  fin_cases hmem <;> simp_all

/-! ## C6: the rule extractor is total and returns every canonical key -/

/-- C6: `extract_with_rules` is a total pure function: for every text
input (including the empty string and a `None` argument) it returns a
mapping containing exactly the 19 canonical extraction keys; as a Lean
function it raises nothing and performs no I/O. -/
theorem rules_total_all_keys (t : Option String) :
    (toAssoc (extract_with_rules t)).map Prod.fst = canonicalKeys ∧
    extract_with_rules none = extract_with_rules (some "") :=
  ⟨rfl, rfl⟩

/-! ## C10: the 20-character gate of the text-model tier -/

/-- C10: for every input text that is empty or whose trimmed length is
below 20, `extract_with_langchain` returns the empty dict, whatever the
language-model availability and outcome and hence without consulting the
model or the rule fallback. -/
theorem langchain_short_input_gate (avail : Bool) (llm : Except Unit ResumeFields)
    (text : String) (h : text = "" ∨ (pyStrip text).length < 20) :
    extract_with_langchain avail llm text = [] := by
  unfold extract_with_langchain
  rw [if_pos h]

/-- Witness for C10 at the 5-character input `"short"`, with the model
available and succeeding: the result is nevertheless empty. -/
theorem langchain_short_input_gate_witness :
    extract_with_langchain true (Except.ok defaultFields) "short" = [] :=
  langchain_short_input_gate true (Except.ok defaultFields) "short"
    (Or.inr (by decide))

/-! ## C2: pipeline-level insufficient-text rejection -/

/-- The text the fallback path of `process_single_resume` would extract
for a given extension. -/
def extFileText (ext : FileExt) (ctx : UploadCtx) : String :=
  match ext with
  | .pdf => ctx.pdfText
  | .docx | .doc => ctx.docxText
  | .other => ""

/-- C2: whenever the vision tier yields nothing and the extracted text
trims to fewer than 50 characters, `process_single_resume` returns no
record — for every behaviour of the text-model tier `ctx.lang`, so the
rule tier is never consulted. -/
theorem pipeline_insufficient_text_reject (ext : FileExt) (ctx : UploadCtx)
    (hv : ctx.vision = []) (ht : (pyStrip (extFileText ext ctx)).length < 50) :
    process_single_resume ext ctx = none := by
  cases ext with
  | pdf =>
    have ht' : (pyStrip ctx.pdfText).length < 50 := ht
    unfold process_single_resume
    dsimp only
    rw [if_pos hv, if_pos (Or.inr ht')]
  | docx =>
    have ht' : (pyStrip ctx.docxText).length < 50 := ht
    unfold process_single_resume
    dsimp only
    rw [if_pos hv]
    by_cases he : ctx.docxText = ""
    · rw [if_pos he]
    · rw [if_neg he, if_pos ht']
  | doc =>
    have ht' : (pyStrip ctx.docxText).length < 50 := ht
    unfold process_single_resume
    dsimp only
    rw [if_pos hv]
    by_cases he : ctx.docxText = ""
    · rw [if_pos he]
    · rw [if_neg he, if_pos ht']
  | other => rfl

/-- A concrete upload context for the C2 witness: vision returned nothing,
the text trims to 9 characters, and the text-model tier is primed to
produce data that must nevertheless never surface. -/
def shortCtx : UploadCtx :=
  { vision := [], pdfText := "too short", docxText := "too short"
    lang := fun _ => [("name", .vStr "ghost")]
    rid := "id-1", fname := "cv.pdf", udate := "2024-01-01 00:00:00" }

/-- Witness for C2: a PDF whose text trims to 9 characters with an empty
vision result is rejected. -/
theorem pipeline_insufficient_text_reject_witness :
    process_single_resume FileExt.pdf shortCtx = none :=
  pipeline_insufficient_text_reject FileExt.pdf shortCtx rfl (by decide)

/-! ## C8: PDF page rendering -/

theorem renderPages_length_le {α : Type} (ps : List (ℚ → Option α)) (sc : ℚ) :
    (renderPages ps sc).length ≤ ps.length := by
  induction ps with
  | nil => simp [renderPages]
  | cons p rest ih =>
    unfold renderPages
    cases p sc with
    | none => simp
    | some a => simp only [List.length_cons]; exact Nat.succ_le_succ ih

theorem renderPages_all_some {α : Type} (ps : List (ℚ → Option α)) (sc : ℚ)
    (h : ∀ p ∈ ps, (p sc).isSome = true) :
    (renderPages ps sc).map some = ps.map (fun p => p sc) := by
  induction ps with
  | nil => simp [renderPages]
  | cons p rest ih =>
    obtain ⟨a, ha⟩ := Option.isSome_iff_exists.mp (h p (by simp))
    unfold renderPages
    rw [ha]
    simp only [List.map_cons, ha]
    exact congrArg (some a :: ·) (ih (fun q hq => h q (by simp [hq])))

/-- C8 (amended): document-open failure yields the empty sequence; when
every one of the first `min page_count maxPages` pages renders at the
given scale, the result is exactly one image per such page in document
order; the result never exceeds `maxPages` pages; and the function is
total (never raises). The source defaults are `maxPages = 3`,
`scale = 2.0`. -/
theorem pdf_to_images_spec {α : Type} (ps : List (ℚ → Option α))
    (maxPages : Nat) (scale : ℚ)
    (h : ∀ p ∈ ps.take maxPages, (p scale).isSome = true) :
    pdf_to_images (none : Option (List (ℚ → Option α))) maxPages scale = [] ∧
    (pdf_to_images (some ps) maxPages scale).length ≤ maxPages ∧
    (pdf_to_images (some ps) maxPages scale).map some =
      (ps.take maxPages).map (fun p => p scale) := by
  refine ⟨rfl, ?_, ?_⟩
  · calc (renderPages (ps.take maxPages) scale).length
        ≤ (ps.take maxPages).length := renderPages_length_le _ _
      _ ≤ maxPages := by simp
  · exact renderPages_all_some _ _ h

/-- The two-page document used by the C8 counterexample: page 1 renders,
page 2 raises. -/
def cexPages : List (ℚ → Option Nat) :=
  [fun _ => some 1, fun _ => none]

/-- Counterexample for C8 as stated: a decode failure on the second page
does not return the empty sequence — the partial prefix `[1]` is
returned instead. -/
theorem pdf_to_images_partial_cex :
    (cexPages.getD 1 (fun _ => some 0)) 2 = none ∧
    pdf_to_images (some cexPages) 3 2 = [1] ∧
    pdf_to_images (some cexPages) 3 2 ≠ [] := by
  refine ⟨rfl, rfl, by decide⟩

/-- Witness for C8 (amended) on an all-rendering two-page document with
`maxPages = 3`, `scale = 2`. -/
theorem pdf_to_images_spec_witness :
    pdf_to_images (some [fun _ => some 10, fun _ => some 20]) 3 (2 : ℚ) =
      ([10, 20] : List Nat) ∧
    (pdf_to_images (none : Option (List (ℚ → Option Nat))) 3 (2 : ℚ) = [] ∧
      (pdf_to_images (some [fun _ => (some 10 : Option Nat), fun _ => some 20]) 3
        (2 : ℚ)).length ≤ 3 ∧
      (pdf_to_images (some [fun _ => (some 10 : Option Nat), fun _ => some 20]) 3
        (2 : ℚ)).map some =
        (([fun _ => some 10, fun _ => some 20] :
          List (ℚ → Option Nat)).take 3).map (fun p => p 2)) :=
  ⟨rfl, pdf_to_images_spec [fun _ => some 10, fun _ => some 20] 3 2
    (by intro p hp; fin_cases hp <;> rfl)⟩

/-! ## C5: coercion of `total_experience_years` -/

theorem parseNum_nonneg (l : List Char) : 0 ≤ parseNum l := by
  unfold parseNum
  dsimp only
  split
  · split
    · positivity
    · positivity
  · positivity

theorem firstNum_getD_nonneg (l : List Char) : 0 ≤ (firstNumL l).getD 0 := by
  induction l with
  | nil => simp [firstNumL]
  | cons c rest ih =>
    unfold firstNumL
    by_cases hc : c.isDigit
    · rw [if_pos hc]
      simpa using parseNum_nonneg (c :: rest)
    · rw [if_neg hc]
      exact ih

/-- The raw mapping `{'total_experience_years': -5}` (negative numeric
input) for the C5 counterexample. -/
def negExpInput : VKey → Option PyVal :=
  fun k => if k = .total_experience_years then some (.vInt (-5)) else none

/-- Counterexample for C5 as stated: a negative numeric input is cast
through unchanged, so the validated `total_experience_years` is `-5.0`,
which is not `≥ 0`. -/
theorem validate_exp_negative_cex :
    validate_resume_data negExpInput .total_experience_years =
      .vFloat (-5) ∧ ((-5 : ℚ) < 0) := by
  exact ⟨by decide, by norm_num⟩

/-- C5 (amended): the validated `total_experience_years` is always a
float; numeric input is cast to float unchanged (hence may be negative);
string input is parsed from its first float-like substring (else `0.0`)
and is therefore non-negative, as is the default for a missing key. -/
theorem validate_exp_spec (x : VKey → Option PyVal) :
    (∃ q : ℚ, validate_resume_data x .total_experience_years = .vFloat q) ∧
    (∀ n : Int, x .total_experience_years = some (.vInt n) →
      validate_resume_data x .total_experience_years = .vFloat (n : ℚ)) ∧
    (∀ q : ℚ, x .total_experience_years = some (.vFloat q) →
      validate_resume_data x .total_experience_years = .vFloat q) ∧
    (∀ s : String, x .total_experience_years = some (.vStr s) →
      validate_resume_data x .total_experience_years =
        .vFloat ((firstNumL s.data).getD 0) ∧
      0 ≤ (firstNumL s.data).getD 0) ∧
    (x .total_experience_years = none →
      validate_resume_data x .total_experience_years = .vFloat 0 ∧
        (0 : ℚ) ≤ 0) := by
  unfold validate_resume_data validateVal
  refine ⟨?_, ?_, ?_, ?_, ?_⟩
  · cases hx : x .total_experience_years with
    | none => exact ⟨_, rfl⟩
    | some v => cases v <;> exact ⟨_, rfl⟩
  · intro n hn; rw [hn]; rfl
  · intro q hq; rw [hq]; rfl
  · intro s hs
    rw [hs]
    exact ⟨rfl, firstNum_getD_nonneg s.data⟩
  · intro hn
    rw [hn]
    exact ⟨by decide, le_refl 0⟩

/-- The raw mapping `{'total_experience_years': "5 years 3 months"}` for
the C5 witness (the spec's own numeric-coercion example). -/
def strExpInput : VKey → Option PyVal :=
  fun k =>
    if k = .total_experience_years then some (.vStr "5 years 3 months") else none

/-- Witness for C5 (amended) at string input `"5 years 3 months"`:
the parsed value is the non-negative float `5.0`. -/
theorem validate_exp_spec_witness :
    validate_resume_data strExpInput .total_experience_years =
      .vFloat ((firstNumL "5 years 3 months".data).getD 0) ∧
    validate_resume_data strExpInput .total_experience_years = .vFloat 5 :=
  ⟨((validate_exp_spec strExpInput).2.2.2.1 "5 years 3 months" rfl).1,
    by decide⟩

/-! ## C7: the phone heuristic -/

/-- C7 (amended): when the phone field is set, it is the whitespace-
stripped first match of the phone pattern and its *character* length
(separators included) is at least 10; and whenever the first match strips
to fewer than 10 characters the phone field stays `"Not Found"` — later
matches are never considered. -/
theorem rules_phone_spec (t : Option String) :
    ((extract_with_rules t).phone ≠ "Not Found" →
      ∃ m, phoneSearch (t.getD "").data = some m ∧
        (extract_with_rules t).phone = ⟨stripL m⟩ ∧ 10 ≤ (stripL m).length) ∧
    (∀ m, phoneSearch (t.getD "").data = some m → (stripL m).length < 10 →
      (extract_with_rules t).phone = "Not Found") := by
  have hp : (extract_with_rules t).phone = rulePhone (t.getD "").data := rfl
  constructor
  · intro hne
    rw [hp] at hne ⊢
    unfold rulePhone at hne ⊢
    cases hps : phoneSearch (t.getD "").data with
    | none => rw [hps] at hne; simp at hne
    | some m =>
      rw [hps] at hne
      dsimp only at hne ⊢
      by_cases hlen : 10 ≤ (stripL m).length
      · exact ⟨m, rfl, by rw [if_pos hlen], hlen⟩
      · rw [if_neg hlen] at hne; simp at hne
  · intro m hm hlen
    rw [hp]
    unfold rulePhone
    rw [hm]
    dsimp only
    rw [if_neg (by omega)]

/-- The C7 counterexample text. -/
def phoneCexText : String := "123-456-78"

/-- Counterexample for C7 as stated: on `"123-456-78"` the first match
contains only 8 digits, yet its stripped string length is 10, so the code
populates the phone field with it. -/
theorem rules_phone_digits_cex :
    (extract_with_rules (some phoneCexText)).phone = "123-456-78" ∧
    ((extract_with_rules (some phoneCexText)).phone.data.filter
      Char.isDigit).length = 8 ∧ (8 < 10) :=
  ⟨by decide, by decide, by norm_num⟩

/-- The C7 witness text. -/
def phoneWitnessText : String := "call 123-456-7890 now"

/-- Witness for C7 (amended): on a text whose first match strips to 12
characters, the phone field is that stripped match. -/
theorem rules_phone_spec_witness :
    ∃ m, phoneSearch ((some phoneWitnessText).getD "").data = some m ∧
      (extract_with_rules (some phoneWitnessText)).phone = ⟨stripL m⟩ ∧
      10 ≤ (stripL m).length :=
  (rules_phone_spec (some phoneWitnessText)).1 (by decide)

/-! ## C3: tier-2 / tier-3 merge -/

theorem updateIfDefault_cons (x : String × PyVal) (xs : List (String × PyVal))
    (k : String) (v : PyVal) :
    updateIfDefault (x :: xs) k v =
      (if x.1 = k ∧ isDefaultVal x.2 then (k, v) else x) :: updateIfDefault xs k v :=
  rfl

theorem updateIfDefault_not_mem (d : List (String × PyVal)) (k : String)
    (v : PyVal) (h : ∀ kv ∈ d, kv.1 ≠ k) : updateIfDefault d k v = d := by
  induction d with
  | nil => rfl
  | cons x xs ih =>
    rw [updateIfDefault_cons, if_neg (fun hc => (h x (by simp)) hc.1)]
    exact congrArg (x :: ·) (ih (fun kv hkv => h kv (by simp [hkv])))

theorem backfill_cons (d : List (String × PyVal)) (r : String × PyVal)
    (rs : List (String × PyVal)) :
    backfill d (r :: rs) = backfill (updateIfDefault d r.1 r.2) rs :=
  rfl

theorem backfill_head_skip (x : String × PyVal) :
    ∀ (rs ds : List (String × PyVal)), (∀ kv ∈ rs, kv.1 ≠ x.1) →
      backfill (x :: ds) rs = x :: backfill ds rs := by
  intro rs
  induction rs with
  | nil => intro ds _; rfl
  | cons r rs ih =>
    intro ds h
    rw [backfill_cons, backfill_cons, updateIfDefault_cons,
      if_neg (fun hc => (h r (by simp)) hc.1.symm)]
    exact ih _ (fun kv hkv => h kv (by simp [hkv]))

theorem backfill_allDefault :
    ∀ (rule data : List (String × PyVal)),
      data.map Prod.fst = rule.map Prod.fst →
      (rule.map Prod.fst).Nodup →
      (∀ kv ∈ data, isDefaultVal kv.2 = true) →
      backfill data rule = rule := by
  intro rule
  induction rule with
  | nil =>
    intro data hk _ _
    have : data = [] := by simpa using hk
    subst this
    rfl
  | cons r rs ih =>
    intro data hk hnd hdef
    cases data with
    | nil => simp at hk
    | cons x ds =>
      simp only [List.map_cons, List.cons.injEq] at hk
      obtain ⟨hx1, hks⟩ := hk
      have hr1 : r.1 ∉ rs.map Prod.fst := (List.nodup_cons.mp hnd).1
      have hnotin : ∀ kv ∈ ds, kv.1 ≠ r.1 := by
        intro kv hkv hceq
        exact hr1 (hks ▸ (hceq ▸ List.mem_map_of_mem Prod.fst hkv))
      rw [backfill_cons, updateIfDefault_cons,
        if_pos ⟨hx1, hdef x (by simp)⟩,
        updateIfDefault_not_mem ds r.1 r.2 hnotin,
        backfill_head_skip (r.1, r.2) rs ds (fun kv hkv hc => hr1 (hc ▸ List.mem_map_of_mem Prod.fst hkv))]
      rw [ih ds hks (List.nodup_cons.mp hnd).2 (fun kv hkv => hdef kv (by simp [hkv]))]

/-- C3 (amended): when the text-model tier parses successfully and the
input passes the 20-character gate, the rule tier is merged in only when
*every* field of the model output is a default value — in which case the
result is exactly the rule extractor's dictionary — and otherwise the
model output is returned unchanged, with no field-by-field backfill. -/
theorem langchain_backfill_spec (f : ResumeFields) (text : String)
    (h : 20 ≤ (pyStrip text).length) :
    extract_with_langchain true (Except.ok f) text =
      (if (fieldsToDict f).all (fun kv => isDefaultVal kv.2)
       then toAssoc (extract_with_rules (some text))
       else fieldsToDict f) := by
  have hne : ¬(text = "" ∨ (pyStrip text).length < 20) := by
    rintro (rfl | hlt)
    · revert h; decide
    · omega
  unfold extract_with_langchain
  rw [if_neg hne, if_neg (by simp)]
  dsimp only
  by_cases hall : (fieldsToDict f).all (fun kv => isDefaultVal kv.2) = true
  · rw [if_pos hall]
    have hempty : (fieldsToDict f).isEmpty = false := rfl
    rw [if_pos (by rw [hempty, hall]; rfl)]
    have hnd : (List.map Prod.fst (toAssoc (extract_with_rules (some text)))).Nodup := by
      show canonicalKeys.Nodup
      decide
    exact backfill_allDefault (toAssoc (extract_with_rules (some text)))
      (fieldsToDict f) rfl hnd (List.all_eq_true.mp hall)
  · rw [if_neg hall]
    have hempty : (fieldsToDict f).isEmpty = false := rfl
    rw [if_neg (by rw [hempty, Bool.false_or]; exact hall)]

/-- The C3 text: long enough to pass the 20-character gate and
containing an email address the rule tier recovers. -/
def cexText : String := "Contact one at one@example.com for details"

/-- The C3 model output: one non-default field (`name`), every other
field default — in particular a default `email`. -/
def cexFields : ResumeFields := { defaultFields with name := "Alice" }

/-- Counterexample for C3 as stated: the model output holds the default
`email` while the rule tier recovers `one@example.com`, yet the returned
mapping keeps the default — no field-by-field backfill happens because
one field (`name`) is non-default. -/
theorem langchain_no_backfill_cex :
    (extract_with_langchain true (Except.ok cexFields) cexText).lookup "email" =
      some (.vStr "Not Found") ∧
    (toAssoc (extract_with_rules (some cexText))).lookup "email" =
      some (.vStr "one@example.com") ∧
    isDefaultVal (.vStr "Not Found") = true ∧
    isDefaultVal (.vStr "one@example.com") = false :=
  ⟨by decide, by decide, by decide, by decide⟩

/-- Witness for C3 (amended): with an all-default model output on the
same text, the result is exactly the rule extractor's dictionary. -/
theorem langchain_backfill_spec_witness :
    extract_with_langchain true (Except.ok defaultFields) cexText =
      toAssoc (extract_with_rules (some cexText)) := by
  rw [langchain_backfill_spec defaultFields cexText (by decide),
    if_pos (by decide)]

/-! ## C9: clean_text -/

/-- No two adjacent whitespace characters. -/
def noTwoSpaces (a b : Char) : Prop :=
  ¬(pyIsSpace a = true ∧ pyIsSpace b = true)

theorem mem_collapseGo :
    ∀ (l : List Char) (ps : Bool) (c : Char),
      c ∈ collapseGo ps l → c = ' ' ∨ c ∈ l := by
  intro l
  induction l with
  | nil => intro ps c h; simp [collapseGo] at h
  | cons a rest ih =>
    intro ps c h
    unfold collapseGo at h
    by_cases ha : pyIsSpace a = true
    · rw [if_pos ha] at h
      cases ps with
      | true =>
        rw [if_pos rfl] at h
        rcases ih true c h with h1 | h1
        · exact Or.inl h1
        · exact Or.inr (by simp [h1])
      | false =>
        rw [if_neg (by simp)] at h
        rcases List.mem_cons.mp h with h1 | h1
        · exact Or.inl h1
        · rcases ih true c h1 with h2 | h2
          · exact Or.inl h2
          · exact Or.inr (by simp [h2])
    · rw [if_neg ha] at h
      rcases List.mem_cons.mp h with h1 | h1
      · exact Or.inr (by simp [h1])
      · rcases ih false c h1 with h2 | h2
        · exact Or.inl h2
        · exact Or.inr (by simp [h2])

theorem collapseGo_true_head :
    ∀ (l : List Char) (c : Char),
      (collapseGo true l).head? = some c → pyIsSpace c = false := by
  intro l
  induction l with
  | nil => intro c h; simp [collapseGo] at h
  | cons a rest ih =>
    intro c h
    unfold collapseGo at h
    by_cases ha : pyIsSpace a = true
    · rw [if_pos ha, if_pos rfl] at h
      exact ih c h
    · rw [if_neg ha] at h
      simp only [List.head?_cons, Option.some.injEq] at h
      rw [← h]
      exact Bool.not_eq_true _ ▸ ha

theorem collapseGo_chain :
    ∀ (l : List Char) (ps : Bool),
      List.Chain' noTwoSpaces (collapseGo ps l) := by
  intro l
  induction l with
  | nil => intro ps; simp [collapseGo]
  | cons a rest ih =>
    intro ps
    unfold collapseGo
    by_cases ha : pyIsSpace a = true
    · rw [if_pos ha]
      cases ps with
      | true => rw [if_pos rfl]; exact ih true
      | false =>
        rw [if_neg (by simp)]
        refine List.chain'_cons'.mpr ⟨?_, ih true⟩
        intro y hy
        exact fun hcon => by simp [collapseGo_true_head rest y hy] at hcon
    · rw [if_neg ha]
      refine List.chain'_cons'.mpr ⟨?_, ih false⟩
      intro y hy
      exact fun hcon => ha hcon.1

theorem chain_stripL {l : List Char}
    (h : List.Chain' noTwoSpaces l) : List.Chain' noTwoSpaces (stripL l) := by
  have hsymm : ∀ (m : List Char), List.Chain' noTwoSpaces m →
      List.Chain' noTwoSpaces m.reverse := by
    intro m hm
    exact List.chain'_reverse.mpr (hm.imp (fun a b hab hcon => hab ⟨hcon.2, hcon.1⟩))
  have h1 : List.Chain' noTwoSpaces (l.dropWhile pyIsSpace) :=
    h.suffix ⟨l.takeWhile pyIsSpace, List.takeWhile_append_dropWhile _ _⟩
  have h2 := hsymm _ h1
  have h3 : List.Chain' noTwoSpaces
      ((l.dropWhile pyIsSpace).reverse.dropWhile pyIsSpace) :=
    h2.suffix ⟨(l.dropWhile pyIsSpace).reverse.takeWhile pyIsSpace,
      List.takeWhile_append_dropWhile _ _⟩
  exact hsymm _ h3

/-- C9: the output of `clean_text` contains no carriage return or
newline, has no two consecutive whitespace characters, and neither starts
nor ends with whitespace. -/
theorem clean_text_spec (s : String) :
    (∀ c ∈ (clean_text s).data, c ≠ '\r' ∧ c ≠ '\n') ∧
    List.Chain' noTwoSpaces (clean_text s).data ∧
    (∀ c, (clean_text s).data.head? = some c → pyIsSpace c = false) ∧
    (∀ c, (clean_text s).data.getLast? = some c → pyIsSpace c = false) := by
  have hdata : (clean_text s).data =
      stripL (collapseGo false
        (s.data.map (fun c => if c = '\r' then ' ' else if c = '\n' then ' ' else c))) :=
    rfl
  refine ⟨?_, ?_, ?_, ?_⟩
  · intro c hc
    rw [hdata] at hc
    rcases mem_collapseGo _ false c (mem_stripL hc) with h1 | h1
    · subst h1; exact ⟨by decide, by decide⟩
    · obtain ⟨a, _, ha⟩ := List.mem_map.mp h1
      by_cases h2 : a = '\r'
      · rw [if_pos h2] at ha; subst ha; exact ⟨by decide, by decide⟩
      · rw [if_neg h2] at ha
        by_cases h3 : a = '\n'
        · rw [if_pos h3] at ha; subst ha; exact ⟨by decide, by decide⟩
        · rw [if_neg h3] at ha; subst ha; exact ⟨h2, h3⟩
  · rw [hdata]
    exact chain_stripL (collapseGo_chain _ false)
  · intro c hc
    rw [hdata] at hc
    cases hd : stripL (collapseGo false
        (s.data.map (fun c => if c = '\r' then ' ' else if c = '\n' then ' ' else c))) with
    | nil => rw [hd] at hc; simp at hc
    | cons x xs =>
      rw [hd] at hc
      simp only [List.head?_cons, Option.some.injEq] at hc
      rw [← hc]
      exact stripL_head_false hd
  · intro c hc
    rw [hdata] at hc
    exact stripL_getLast_false hc

/-- Witness for C9 at `"  a\r\n b  "`: the cleaned text is `"a b"` and
satisfies the no-consecutive-whitespace chain property. -/
theorem clean_text_spec_witness :
    clean_text "  a\r\n b  " = "a b" ∧
    List.Chain' noTwoSpaces (clean_text "  a\r\n b  ").data :=
  ⟨by decide, (clean_text_spec "  a\r\n b  ").2.1⟩

/-! ## C4: idempotence of validation -/

theorem pyStrip_idem (s : String) : pyStrip (pyStrip s) = pyStrip s := by
  unfold pyStrip
  exact congrArg String.mk (stripL_stripL s.data)

theorem yearAt_spec :
    ∀ (l m : List Char), yearAt l = some m →
      yearAt m = some m ∧ ∀ c ∈ m, c.isDigit = true := by
  intro l m h
  match l with
  | [] => simp [yearAt] at h
  | [c1] => simp [yearAt] at h
  | [c1, c2] => simp [yearAt] at h
  | [c1, c2, c3] => simp [yearAt] at h
  | c1 :: c2 :: c3 :: c4 :: rest =>
    unfold yearAt at h
    dsimp only at h
    by_cases hc : (((c1 = '1' ∧ c2 = '9') ∨ (c1 = '2' ∧ c2 = '0')) ∧
        c3.isDigit ∧ c4.isDigit)
    · rw [if_pos hc] at h
      have hm : m = [c1, c2, c3, c4] := by
        simpa using h.symm
      subst hm
      constructor
      · unfold yearAt
        dsimp only
        rw [if_pos hc]
      · intro c hcmem
        simp only [List.mem_cons, List.not_mem_nil, or_false] at hcmem
        rcases hcmem with rfl | rfl | rfl | rfl
        · rcases hc.1 with ⟨h1, _⟩ | ⟨h1, _⟩ <;> rw [h1] <;> decide
        · rcases hc.1 with ⟨_, h2⟩ | ⟨_, h2⟩ <;> rw [h2] <;> decide
        · exact hc.2.1
        · exact hc.2.2
    · rw [if_neg hc] at h
      cases h

theorem yearSearchL_of_self {m : List Char} (h : yearAt m = some m) :
    yearSearchL m = some m := by
  cases m with
  | nil => simp [yearAt] at h
  | cons c rest =>
    unfold yearSearchL
    rw [h]

theorem yearSearchL_spec :
    ∀ (l m : List Char), yearSearchL l = some m →
      yearSearchL m = some m ∧ ∀ c ∈ m, c.isDigit = true := by
  intro l
  induction l with
  | nil => intro m h; simp [yearSearchL] at h
  | cons c rest ih =>
    intro m h
    unfold yearSearchL at h
    cases ha : yearAt (c :: rest) with
    | some m2 =>
      rw [ha] at h
      cases h
      obtain ⟨hself, hdig⟩ := yearAt_spec _ _ ha
      exact ⟨yearSearchL_of_self hself, hdig⟩
    | none =>
      rw [ha] at h
      exact ih m h

theorem validateVal_idem (k : VKey) (v0 : Option PyVal) :
    validateVal k (some (validateVal k v0)) = validateVal k v0 := by
  by_cases hk : k = .total_experience_years
  · subst hk
    cases v0 with
    | none => rfl
    | some v => cases v <;> rfl
  · by_cases hk2 : k = .graduation_year
    · subst hk2
      have hRHS : validateVal .graduation_year v0 =
          .vStr ⟨stripL ((yearSearchL
            (pyStr (v0.getD (.vStr "Not Found"))).data).getD [])⟩ := rfl
      rw [hRHS]
      cases hy : yearSearchL (pyStr (v0.getD (.vStr "Not Found"))).data with
      | none => rfl
      | some m =>
        obtain ⟨hself, hdig⟩ := yearSearchL_spec _ _ hy
        have hstrip : stripL m = m :=
          stripL_of_all_not_space (fun c hc => isDigit_not_space (hdig c hc))
        show validateVal .graduation_year
            (some (.vStr ⟨stripL ((some m).getD [])⟩)) =
          .vStr ⟨stripL ((some m).getD [])⟩
        simp only [Option.getD_some, hstrip]
        have hG : validateVal .graduation_year (some (.vStr ⟨m⟩)) =
            .vStr ⟨stripL ((yearSearchL (String.mk m).data).getD [])⟩ := rfl
        rw [hG, show (String.mk m).data = m from rfl, hself]
        simp only [Option.getD_some, hstrip]
    · have hE : ∀ w : PyVal, validateVal k (some w) =
          (match w with
           | .vStr s => .vStr (pyStrip s)
           | w => w) := by
        intro w
        unfold validateVal
        rw [if_neg hk, if_neg hk2]
        rfl
      cases v0 with
      | none =>
        have h0 : validateVal k none = .vStr (pyStrip "Not Found") := by
          unfold validateVal
          rw [if_neg hk, if_neg hk2]
          rfl
        rw [h0, hE]
        exact congrArg PyVal.vStr (pyStrip_idem "Not Found")
      | some v =>
        cases v with
        | vStr s =>
          rw [hE, hE]
          exact congrArg PyVal.vStr (pyStrip_idem s)
        | vInt n => rw [hE, hE]
        | vFloat q => rw [hE, hE]

/-- C4: validation is idempotent — re-validating a validated record
returns it unchanged, for every raw field mapping. -/
theorem validate_idempotent (x : VKey → Option PyVal) :
    validate_resume_data (fun k => some (validate_resume_data x k)) =
      validate_resume_data x := by
  funext k
  exact validateVal_idem k (x k)

/-! ## C1: merge-mode save with last-wins deduplication -/

theorem mem_dropDupLast {α κ : Type} [DecidableEq κ] (key : α → κ) :
    ∀ (l : List α) (a : α), a ∈ dropDupLast key l → a ∈ l := by
  intro l
  induction l with
  | nil => intro a h; simp [dropDupLast] at h
  | cons b rest ih =>
    intro a h
    unfold dropDupLast at h
    split at h
    · exact List.mem_cons_of_mem b (ih a h)
    · rcases List.mem_cons.mp h with rfl | h1
      · exact List.mem_cons_self _ _
      · exact List.mem_cons_of_mem b (ih a h1)

theorem dropDupLast_keys_nodup {α κ : Type} [DecidableEq κ] (key : α → κ) :
    ∀ l : List α, ((dropDupLast key l).map key).Nodup := by
  intro l
  induction l with
  | nil => simp [dropDupLast]
  | cons b rest ih =>
    unfold dropDupLast
    split
    · exact ih
    · rename_i hany
      simp only [List.map_cons]
      refine List.nodup_cons.mpr ⟨?_, ih⟩
      intro hmem
      obtain ⟨a, ha, hkey⟩ := List.mem_map.mp hmem
      exact hany (List.any_eq_true.mpr
        ⟨a, mem_dropDupLast key rest a ha, by simp [hkey]⟩)

theorem dropDupLast_last_mem {α κ : Type} [DecidableEq κ] (key : α → κ) :
    ∀ (l1 : List α) (a : α) (l2 : List α),
      (∀ b ∈ l2, key b ≠ key a) → a ∈ dropDupLast key (l1 ++ a :: l2) := by
  intro l1
  induction l1 with
  | nil =>
    intro a l2 h
    simp only [List.nil_append]
    unfold dropDupLast
    split
    · rename_i hany
      exfalso
      obtain ⟨b, hb, hkb⟩ := List.any_eq_true.mp hany
      exact h b hb (by simpa using hkb)
    · exact List.mem_cons_self _ _
  | cons c l1' ih =>
    intro a l2 h
    simp only [List.cons_append]
    unfold dropDupLast
    split
    · exact ih a l2 h
    · exact List.mem_cons_of_mem c (ih a l2 h)

/-- The concatenation, old rows before new rows, both reindexed to the
union of columns, that merge mode deduplicates. -/
def mergeCombined (existing df : DataFrame) : List (List (Option String)) :=
  (reindexFrame existing (unionCols existing.cols df.cols)).rows ++
  (reindexFrame df (unionCols existing.cols df.cols)).rows

/-- The primary dedup key of merge mode: the row's `resume_id` cell. -/
def ridKey (existing df : DataFrame) (r : List (Option String)) :
    Option String :=
  getCell (unionCols existing.cols df.cols) r "resume_id"

/-- The fallback dedup key of merge mode: the pair of the row's
`file_name` and `upload_date` cells. -/
def pairKey (existing df : DataFrame) (r : List (Option String)) :
    Option String × Option String :=
  (getCell (unionCols existing.cols df.cols) r "file_name",
   getCell (unionCols existing.cols df.cols) r "upload_date")

/-- C1: in merge mode `save_to_excel` reindexes the previously persisted
rows and the new rows to the union of their columns and concatenates
old-then-new; an absent (or unreadable) persisted table behaves as an
empty one; every cell of the written table is filled (remaining empty
cells become `"Not Found"`); when a `resume_id` column exists the rows
are deduplicated by `resume_id` keeping the last occurrence (the written
rows carry pairwise-distinct `resume_id` keys and any row that is the
last with its key in the concatenation survives); otherwise, when both
`file_name` and `upload_date` columns exist, the rows are deduplicated
by that pair with the same last-wins policy. -/
theorem save_merge_dedup_spec (existing df : DataFrame) :
    (save_to_excel df none (some existing) true).cols =
      unionCols existing.cols df.cols ∧
    save_to_excel df none none true = save_to_excel df none (some ⟨[], []⟩) true ∧
    (∀ row ∈ (save_to_excel df none (some existing) true).rows,
      ∀ cell ∈ row, cell.isSome = true) ∧
    ("resume_id" ∈ unionCols existing.cols df.cols →
      (save_to_excel df none (some existing) true).rows =
        (dropDupLast (ridKey existing df) (mergeCombined existing df)).map
          fillRow ∧
      ((dropDupLast (ridKey existing df) (mergeCombined existing df)).map
        (ridKey existing df)).Nodup ∧
      (∀ l1 row l2, mergeCombined existing df = l1 ++ row :: l2 →
        (∀ r2 ∈ l2, ridKey existing df r2 ≠ ridKey existing df row) →
        fillRow row ∈ (save_to_excel df none (some existing) true).rows)) ∧
    ("resume_id" ∉ unionCols existing.cols df.cols →
      "file_name" ∈ unionCols existing.cols df.cols ∧
        "upload_date" ∈ unionCols existing.cols df.cols →
      (save_to_excel df none (some existing) true).rows =
        (dropDupLast (pairKey existing df) (mergeCombined existing df)).map
          fillRow ∧
      ((dropDupLast (pairKey existing df) (mergeCombined existing df)).map
        (pairKey existing df)).Nodup ∧
      (∀ l1 row l2, mergeCombined existing df = l1 ++ row :: l2 →
        (∀ r2 ∈ l2, pairKey existing df r2 ≠ pairKey existing df row) →
        fillRow row ∈ (save_to_excel df none (some existing) true).rows)) := by
  have hexp : save_to_excel df none (some existing) true =
      ⟨unionCols existing.cols df.cols,
        (if "resume_id" ∈ unionCols existing.cols df.cols then
          dropDupLast (ridKey existing df) (mergeCombined existing df)
        else if "file_name" ∈ unionCols existing.cols df.cols ∧
            "upload_date" ∈ unionCols existing.cols df.cols then
          dropDupLast (pairKey existing df) (mergeCombined existing df)
        else mergeCombined existing df).map fillRow⟩ := by
    unfold save_to_excel projectColumns mergeCombined ridKey pairKey
    dsimp only [Option.getD_some]
    rw [if_pos rfl]
  refine ⟨by rw [hexp], rfl, ?_, ?_, ?_⟩
  · intro row hrow cell hcell
    rw [hexp] at hrow
    obtain ⟨r, _, rfl⟩ := List.mem_map.mp hrow
    obtain ⟨c, _, rfl⟩ := List.mem_map.mp hcell
    rfl
  · intro hid
    have hrows : (save_to_excel df none (some existing) true).rows =
        (dropDupLast (ridKey existing df) (mergeCombined existing df)).map
          fillRow := by
      rw [hexp]
      dsimp only
      rw [if_pos hid]
    refine ⟨hrows, dropDupLast_keys_nodup _ _, ?_⟩
    intro l1 row l2 hdecomp hlast
    rw [hrows]
    exact List.mem_map_of_mem fillRow
      (hdecomp ▸ dropDupLast_last_mem _ l1 row l2 hlast)
  · intro hnid hpair
    have hrows : (save_to_excel df none (some existing) true).rows =
        (dropDupLast (pairKey existing df) (mergeCombined existing df)).map
          fillRow := by
      rw [hexp]
      dsimp only
      rw [if_neg hnid, if_pos hpair]
    refine ⟨hrows, dropDupLast_keys_nodup _ _, ?_⟩
    intro l1 row l2 hdecomp hlast
    rw [hrows]
    exact List.mem_map_of_mem fillRow
      (hdecomp ▸ dropDupLast_last_mem _ l1 row l2 hlast)

/-- Old store for the C1 witness: one row `{resume_id: "A", name: "Old"}`. -/
def mergeOldDF : DataFrame := ⟨["resume_id", "name"], [[some "A", some "Old"]]⟩

/-- New data for the C1 witness: one row `{resume_id: "A", name: "New"}`. -/
def mergeNewDF : DataFrame := ⟨["resume_id", "name"], [[some "A", some "New"]]⟩

/-- Old store without a `resume_id` column, for the C1 fallback-branch
witness: identity is the pair (`file_name`, `upload_date`). -/
def pairOldDF : DataFrame :=
  ⟨["file_name", "upload_date", "name"],
   [[some "cv.pdf", some "2024-01-01", some "Old"]]⟩

/-- New data without a `resume_id` column, colliding with `pairOldDF` on
the pair (`file_name`, `upload_date`). -/
def pairNewDF : DataFrame :=
  ⟨["file_name", "upload_date", "name"],
   [[some "cv.pdf", some "2024-01-01", some "New"]]⟩

/-- Witness for C1, exercising both dedup branches: merging on identity
`resume_id = "A"` yields exactly one row for `"A"` whose name is
`"New"`, and merging two rows that collide on the fallback pair
(`file_name`, `upload_date`) — with no `resume_id` column — keeps only
the new row. -/
theorem save_merge_dedup_spec_witness :
    save_to_excel mergeNewDF none (some mergeOldDF) true =
      ⟨["resume_id", "name"], [[some "A", some "New"]]⟩ ∧
    (save_to_excel mergeNewDF none (some mergeOldDF) true).rows =
      (dropDupLast (ridKey mergeOldDF mergeNewDF)
        (mergeCombined mergeOldDF mergeNewDF)).map fillRow ∧
    save_to_excel pairNewDF none (some pairOldDF) true =
      ⟨["file_name", "upload_date", "name"],
       [[some "cv.pdf", some "2024-01-01", some "New"]]⟩ ∧
    (save_to_excel pairNewDF none (some pairOldDF) true).rows =
      (dropDupLast (pairKey pairOldDF pairNewDF)
        (mergeCombined pairOldDF pairNewDF)).map fillRow :=
  ⟨by decide,
   ((save_merge_dedup_spec mergeOldDF mergeNewDF).2.2.2.1 (by decide)).1,
   by decide,
   ((save_merge_dedup_spec pairOldDF pairNewDF).2.2.2.2 (by decide)
     ⟨by decide, by decide⟩).1⟩

end RS

